import Mathlib

/-!
Verification of the move/revert log subsystem of the dlm repository
(src/src/file_organizer.py, src/src/group_organizer.py, src/dlm.py).

The filesystem is embedded as an explicit state: the set of existing regular
files and the set of existing directories, each identified by its full path
(a list of components).  The three core operations `create_folders`,
`move_files_to_dir` and `revert_moves` of file_organizer.py are embedded as
pure state-passing functions; the whole-file ledger write is modelled by a
`writeOk` flag (the write either replaces the ledger file or, failing,
leaves it untouched).  The mover is only ever applied to regular files, so
relocation is modelled as relocation of a single path entry.
-/

set_option maxHeartbeats 1000000

namespace Dlm

/-- A filesystem path, as the list of its components (no separators). -/
abbrev Path := List String

/-- Render a path the way Python's str(Path) does, joining components with a slash. -/
def pathStr (p : Path) : String := String.intercalate "/" p

/-- The filesystem state seen by the organizer: existing regular files and
existing directories, each given by its full path. -/
structure FS where
  files : List Path
  dirs : List Path
deriving DecidableEq

/-- Path.exists(): the path names an existing file or directory. -/
def pathEx (fs : FS) (p : Path) : Bool :=
  decide (p ∈ fs.files) || decide (p ∈ fs.dirs)

/-- Path.is_dir(). -/
def isDir (fs : FS) (p : Path) : Bool := decide (p ∈ fs.dirs)

/-- q lies strictly below p in the directory tree. -/
def strictUnder (p q : Path) : Bool :=
  decide (p.length < q.length) && decide (q.take p.length = p)

/-- not any(folder.iterdir()): the directory has no entry below it. -/
def dirEmpty (fs : FS) (p : Path) : Bool :=
  !(fs.files.any (fun q => strictUnder p q) || fs.dirs.any (fun q => strictUnder p q))

/-- Path.mkdir(exist_ok=True): create the directory if it is not already there. -/
def mkdir (fs : FS) (p : Path) : FS :=
  if decide (p ∈ fs.dirs) then fs else { fs with dirs := p :: fs.dirs }

/-- The strict ancestors of p (shortest first), excluding the filesystem root. -/
def parentsOf (p : Path) : List Path :=
  (List.range (p.length - 1)).map (fun i => p.take (i + 1))

/-- path.parent.mkdir(parents=True, exist_ok=True): create every missing ancestor. -/
def mkdirParents (fs : FS) (p : Path) : FS := (parentsOf p).foldl mkdir fs

/-- Path.rmdir() of an empty directory. -/
def rmdir (fs : FS) (p : Path) : FS :=
  { fs with dirs := fs.dirs.filter (fun q => decide (q ≠ p)) }

/-- shutil.move src dst, for a source that is a regular file (the mover and the
reverter only relocate files; a directory entry is relocated as a whole). -/
def moveFile (fs : FS) (src dst : Path) : FS :=
  if decide (src ∈ fs.files) then
    { fs with files := dst :: fs.files.filter (fun q => decide (q ≠ src)) }
  else
    { fs with dirs := dst :: fs.dirs.filter (fun q => decide (q ≠ src)) }

/-- One move entry of the ledger (file_organizer.py lines 121-126). -/
structure MoveRecord where
  timestamp : String
  source : Path
  target : Path
  filename : String
deriving DecidableEq

/-- One folder-creation entry of the ledger (file_organizer.py lines 53-58). -/
structure FolderCreationRecord where
  timestamp : String
  folderName : String
  folderPath : Path
deriving DecidableEq

/-- The persisted ledger content relevant to reversal: the ordered moves and
the ordered folder creations (move_log.json / group_move_log.json). -/
structure Ledger where
  moves : List MoveRecord
  foldersCreated : List FolderCreationRecord
deriving DecidableEq

/-- Insert x in front of the first element whose timestamp key is not larger,
as Python's stable sort with reverse=True places it. -/
def insertByTsDesc (key : α → String) (x : α) : List α → List α
  | [] => [x]
  | n :: ns =>
    if key n ≤ key x then x :: n :: ns else n :: insertByTsDesc key x ns

/-- list.sort(key=timestamp, reverse=True): stable sort, descending timestamps. -/
def sortByTsDesc (key : α → String) : List α → List α
  | [] => []
  | x :: xs => insertByTsDesc key x (sortByTsDesc key xs)

/-- The four result buckets returned by revert_moves (lines 183-188). -/
structure RevertResult where
  reverted : List String
  foldersRemoved : List String
  errors : List String
  notFound : List String
deriving DecidableEq

def emptyRevertResult : RevertResult :=
  { reverted := [], foldersRemoved := [], errors := [], notFound := [] }

/-- The success message appended for a reverted move (line 220). -/
def revertedMsg (m : MoveRecord) : String :=
  pathStr m.target ++ " -> " ++ pathStr m.source

/-- The message appended when a move's target no longer exists (line 222). -/
def targetNotFoundMsg (m : MoveRecord) : String :=
  "Target file not found: " ++ pathStr m.target

/-- The message appended for a non-empty created folder (line 244). -/
def folderNotEmptyMsg (fe : FolderCreationRecord) : String :=
  "Folder not empty, cannot remove: " ++ pathStr fe.folderPath

/-- The message appended for a missing created folder (line 247). -/
def folderNotFoundMsg (fe : FolderCreationRecord) : String :=
  "Folder not found or not a directory: " ++ pathStr fe.folderPath

/-- Body of the per-move loop of revert_moves (lines 209-227): if the recorded
target still exists, recreate the source's parents, move the file back and
record success; otherwise record the move under not_found. -/
def revertMoveStep (fs : FS) (r : RevertResult) (m : MoveRecord) : FS × RevertResult :=
  if pathEx fs m.target then
    (moveFile (mkdirParents fs m.source) m.target m.source,
     { r with reverted := r.reverted ++ [revertedMsg m] })
  else
    (fs, { r with notFound := r.notFound ++ [targetNotFoundMsg m] })

/-- The per-move loop of revert_moves over a list of (already sorted) moves. -/
def processMoves (fs : FS) (r : RevertResult) : List MoveRecord → FS × RevertResult
  | [] => (fs, r)
  | m :: ms =>
    let s := revertMoveStep fs r m
    processMoves s.1 s.2 ms

/-- Body of the folder-removal loop of revert_moves (lines 234-252): delete the
recorded folder only when it exists, is a directory and is empty; report a
non-empty folder as an error, a missing one under not_found. -/
def revertFolderStep (fs : FS) (r : RevertResult) (fe : FolderCreationRecord) :
    FS × RevertResult :=
  if pathEx fs fe.folderPath && isDir fs fe.folderPath then
    if dirEmpty fs fe.folderPath then
      (rmdir fs fe.folderPath,
       { r with foldersRemoved := r.foldersRemoved ++ [pathStr fe.folderPath] })
    else
      (fs, { r with errors := r.errors ++ [folderNotEmptyMsg fe] })
  else
    (fs, { r with notFound := r.notFound ++ [folderNotFoundMsg fe] })

/-- The folder-removal loop of revert_moves over (already sorted) records. -/
def processFolders (fs : FS) (r : RevertResult) :
    List FolderCreationRecord → FS × RevertResult
  | [] => (fs, r)
  | fe :: fes =>
    let s := revertFolderStep fs r fe
    processFolders s.1 s.2 fes

/-- revert_moves (file_organizer.py lines 173-254) applied to a loaded ledger:
reverts the moves sorted by timestamp descending, then removes the created
folders sorted by timestamp descending.  The empty-ledger early return of
lines 200-202 is kept; the unreadable-file path is outside the state model. -/
def revertMoves (fs : FS) (led : Ledger) : FS × RevertResult :=
  if led.moves.isEmpty && led.foldersCreated.isEmpty then
    (fs, { emptyRevertResult with
            errors := ["No moves or folder creation found in log file"] })
  else
    let p := processMoves fs emptyRevertResult
      (sortByTsDesc MoveRecord.timestamp led.moves)
    processFolders p.1 p.2
      (sortByTsDesc FolderCreationRecord.timestamp led.foldersCreated)

/-- Python Path.stem and Path.suffix of a final path component: split at the
last dot when that dot is neither the first nor the last character. -/
def splitStemSuffix (name : String) : String × String :=
  let cs := name.toList
  match (List.range cs.length).filter (fun i => decide (cs.get? i = some '.')) |>.getLast? with
  | some i =>
    if 0 < i ∧ i < cs.length - 1 then (⟨cs.take i⟩, ⟨cs.drop i⟩) else (name, "")
  | none => (name, "")

/-- The candidate name f"{stem}_{counter}{suffix}" of line 113. -/
def renName (stem suf : String) (counter : Nat) : String :=
  stem ++ "_" ++ toString counter ++ suf

/-- The while loop of lines 110-115: starting at the given counter, return the
first candidate path target_dir/{stem}_{k}{suffix} that does not exist.  The
loop of the source terminates because the filesystem is finite; the embedding
makes the same search primitive recursive on a fuel bound chosen large
enough (see moveOneFile). -/
def resolveName (fs : FS) (tgtDirPath : Path) (stem suf : String) :
    Nat → Nat → Path
  | 0, k => tgtDirPath ++ [renName stem suf k]
  | fuel + 1, k =>
    let cand := tgtDirPath ++ [renName stem suf k]
    if pathEx fs cand then resolveName fs tgtDirPath stem suf fuel (k + 1) else cand

/-- Fuel that exceeds the number of existing filesystem entries. -/
def searchFuel (fs : FS) : Nat := fs.files.length + fs.dirs.length + 1

/-- Body of the per-file loop of move_files_to_dir (lines 101-136): if the
source exists, resolve a collision on the target name by counting _1, _2, …
and relocate the file, producing a MoveRecord; if the source is absent,
produce the "Source file not found" error and leave the state unchanged. -/
def moveOneFile (fs : FS) (base : Path) (targetDir ts filename : String) :
    FS × Option MoveRecord × Option String :=
  let src := base ++ [filename]
  let tgtDirPath := base ++ [targetDir]
  let tgt0 := tgtDirPath ++ [filename]
  if pathEx fs src then
    let tgt :=
      if pathEx fs tgt0 then
        let sp := splitStemSuffix filename
        resolveName fs tgtDirPath sp.1 sp.2 (searchFuel fs) 1
      else tgt0
    (moveFile fs src tgt, some { timestamp := ts, source := src, target := tgt,
                                 filename := filename }, none)
  else
    (fs, none, some ("Source file not found: " ++ filename))

/-- The per-file loop of move_files_to_dir over the whole batch, accumulating
the successful MoveRecords and the error messages in order. -/
def processFiles (fs : FS) (base : Path) (targetDir ts : String) :
    List String → FS × List MoveRecord × List String
  | [] => (fs, [], [])
  | f :: rest =>
    let s := moveOneFile fs base targetDir ts f
    let r := processFiles s.1 base targetDir ts rest
    (r.1, s.2.1.toList ++ r.2.1, s.2.2.toList ++ r.2.2)

/-- The caller-visible outcome of move_files_to_dir: the moves and errors
buckets, and whether results["log_file"] was set (lines 96-99, 164). -/
structure MoveResults where
  moves : List MoveRecord
  errors : List String
  logWritten : Bool
deriving DecidableEq

/-- move_files_to_dir (file_organizer.py lines 71-170).  The optional ledger
argument is the parsed content of the log file when a log path is supplied
(a missing or corrupt file parses to the empty ledger, lines 142-148).
writeOk tells whether the final whole-file write of lines 161-162 succeeds;
a failed write appends "Failed to save log file: <cause>" to the errors
bucket (line 167-168) and leaves the ledger file unchanged.  Returns the
results, the new filesystem and the ledger file content after the call. -/
def moveFilesToDir (fs : FS) (base : Path) (files : List String)
    (targetDir : String) (led : Option Ledger) (ts : String)
    (writeOk : Bool) (writeErr : String) :
    MoveResults × FS × Option Ledger :=
  let fs0 := mkdir fs (base ++ [targetDir])
  let p := processFiles fs0 base targetDir ts files
  match led with
  | none => ({ moves := p.2.1, errors := p.2.2, logWritten := false }, p.1, none)
  | some L =>
    if writeOk then
      ({ moves := p.2.1, errors := p.2.2, logWritten := true }, p.1,
       some { moves := L.moves ++ p.2.1, foldersCreated := L.foldersCreated })
    else
      ({ moves := p.2.1,
         errors := p.2.2 ++ ["Failed to save log file: " ++ writeErr],
         logWritten := false }, p.1, some L)

/-- Python dict assignment folders[name] = path on an insertion-ordered map. -/
def setAssoc : List (String × Path) → String → Path → List (String × Path)
  | [], k, v => [(k, v)]
  | (k', v') :: rest, k, v =>
    if k' = k then (k, v) :: rest else (k', v') :: setAssoc rest k v

/-- Lookup in the insertion-ordered map returned by create_folders. -/
def lookupAssoc : List (String × Path) → String → Option Path
  | [], _ => none
  | (k, v) :: rest, k' => if k = k' then some v else lookupAssoc rest k'

/-- The per-name loop of create_folders (lines 32-37): create the folder only
when the path does not exist, remember which names were newly created, and
map every requested name to its resolved path. -/
def createFoldersLoop (fs : FS) (base : Path) :
    List String → List (String × Path) → List String →
    FS × List (String × Path) × List String
  | [], acc, created => (fs, acc, created)
  | n :: rest, acc, created =>
    let p := base ++ [n]
    if pathEx fs p then
      createFoldersLoop fs base rest (setAssoc acc n p) created
    else
      createFoldersLoop (mkdir fs p) base rest (setAssoc acc n p) (created ++ [n])

/-- The caller-visible outcome of create_folders: the name-to-path mapping it
returns, plus the filesystem and ledger file states and the error, if any,
that escapes to the caller (none: lines 41-66 catch every logging failure
and only print a warning). -/
structure CreateResult where
  folders : List (String × Path)
  fs : FS
  ledger : Option Ledger
  raised : Option String
deriving DecidableEq

/-- create_folders (file_organizer.py lines 16-68).  The optional ledger
argument is the parsed content of the log file when a log path is supplied;
logging happens only when some folder was newly created (line 40).  writeOk
tells whether the whole-file write of lines 62-63 succeeds; on failure the
exception is caught at lines 65-66 (warning printed, nothing surfaced) and
the ledger file is left unchanged. -/
def createFolders (fs : FS) (base : Path) (names : List String)
    (led : Option Ledger) (ts : String) (writeOk : Bool) : CreateResult :=
  let l := createFoldersLoop fs base names [] []
  let ledgerOut : Option Ledger :=
    match led with
    | none => none
    | some L =>
      if l.2.2.isEmpty then some L
      else if writeOk then
        some { L with foldersCreated := L.foldersCreated ++
                l.2.2.map (fun n =>
                  { timestamp := ts, folderName := n, folderPath := base ++ [n] }) }
      else some L
  { folders := l.2.1, fs := l.1, ledger := ledgerOut, raised := none }

/-- result.get("error") on the dictionary returned by revert_moves: the
function only ever populates the keys reverted, folders_removed, errors and
not_found (lines 183-188), so an "error" key is never present. -/
def revertResultErrorKey (_ : RevertResult) : Option String := none

/-- revert_group_organization (group_organizer.py lines 129-158) applied to the
parsed group ledger (none when group_move_log.json is missing).  Returns the
early error if any, the revert result, the new filesystem, and whether the
group ledger file was unlinked (lines 150-156: it is unlinked whenever
result.get("error") is falsy). -/
def revertGroupOrganization (fs : FS) (led : Option Ledger) :
    Option String × RevertResult × FS × Bool :=
  match led with
  | none => (some "No group move log found. Nothing to revert.",
             emptyRevertResult, fs, false)
  | some L =>
    let p := revertMoves fs L
    (none, p.2, p.1, (revertResultErrorKey p.2).isNone)

/-- revert_organization (dlm.py lines 187-216) applied to the parsed initial
ledger (none when move_log.json is missing).  The command only prints the
result summary; it never unlinks the ledger file, so the last component
(whether the ledger file was deleted) is false on every path. -/
def revertOrganization (fs : FS) (led : Option Ledger) :
    RevertResult × FS × Bool :=
  match led with
  | none => (emptyRevertResult, fs, false)
  | some L =>
    let p := revertMoves fs L
    (p.2, p.1, false)

/-! ### Basic filesystem lemmas -/

theorem pathEx_true_iff (fs : FS) (p : Path) :
    pathEx fs p = true ↔ p ∈ fs.files ∨ p ∈ fs.dirs := by
  simp [pathEx]

theorem isDir_true_iff (fs : FS) (p : Path) :
    isDir fs p = true ↔ p ∈ fs.dirs := by
  simp [isDir]

theorem files_mkdir (fs : FS) (p : Path) : (mkdir fs p).files = fs.files := by
  unfold mkdir; split <;> rfl

theorem mem_dirs_mkdir (fs : FS) (p q : Path) :
    q ∈ (mkdir fs p).dirs ↔ q = p ∨ q ∈ fs.dirs := by
  unfold mkdir
  split
  · rename_i h
    have hp : p ∈ fs.dirs := of_decide_eq_true h
    constructor
    · exact Or.inr
    · rintro (rfl | h')
      · exact hp
      · exact h'
  · simp [List.mem_cons]

theorem mem_filter_ne {l : List Path} {q s : Path} :
    q ∈ l.filter (fun x => decide (x ≠ s)) ↔ q ∈ l ∧ q ≠ s := by
  simp [List.mem_filter]

theorem foldl_mkdir_files (fs : FS) (l : List Path) :
    (l.foldl mkdir fs).files = fs.files := by
  induction l generalizing fs with
  | nil => rfl
  | cons p ps ih => simp [List.foldl_cons, ih, files_mkdir]

theorem mem_dirs_foldl_mkdir (fs : FS) (l : List Path) (q : Path) :
    q ∈ (l.foldl mkdir fs).dirs ↔ q ∈ l ∨ q ∈ fs.dirs := by
  induction l generalizing fs with
  | nil => simp
  | cons p ps ih =>
    simp [List.foldl_cons, ih, mem_dirs_mkdir, List.mem_cons]
    tauto

theorem mkdirParents_files (fs : FS) (p : Path) :
    (mkdirParents fs p).files = fs.files := foldl_mkdir_files fs (parentsOf p)

theorem mem_dirs_mkdirParents (fs : FS) (p q : Path) :
    q ∈ (mkdirParents fs p).dirs ↔ q ∈ parentsOf p ∨ q ∈ fs.dirs :=
  mem_dirs_foldl_mkdir fs (parentsOf p) q

theorem moveFile_files_of_mem (fs : FS) {src : Path} (dst : Path)
    (h : src ∈ fs.files) :
    (moveFile fs src dst).files = dst :: fs.files.filter (fun q => decide (q ≠ src))
    ∧ (moveFile fs src dst).dirs = fs.dirs := by
  simp [moveFile, h]

theorem moveFile_of_not_mem (fs : FS) {src : Path} (dst : Path)
    (h : src ∉ fs.files) :
    (moveFile fs src dst).files = fs.files
    ∧ (moveFile fs src dst).dirs = dst :: fs.dirs.filter (fun q => decide (q ≠ src)) := by
  simp [moveFile, h]

theorem mem_dirs_moveFile (fs : FS) (src dst q : Path) (hq : q ∈ fs.dirs)
    (hne : q ≠ src) : q ∈ (moveFile fs src dst).dirs := by
  unfold moveFile
  split
  · exact hq
  · exact List.mem_cons_of_mem _ (mem_filter_ne.mpr ⟨hq, hne⟩)

theorem mem_dirs_rmdir (fs : FS) (p q : Path) :
    q ∈ (rmdir fs p).dirs ↔ q ∈ fs.dirs ∧ q ≠ p := by
  simp [rmdir, List.mem_filter]

theorem files_rmdir (fs : FS) (p : Path) : (rmdir fs p).files = fs.files := rfl

/-! ### The stable descending timestamp sort -/

theorem mem_insertByTsDesc {α : Type} (key : α → String) (x a : α) (l : List α) :
    a ∈ insertByTsDesc key x l ↔ a = x ∨ a ∈ l := by
  induction l with
  | nil => simp [insertByTsDesc]
  | cons n ns ih =>
    unfold insertByTsDesc
    split
    · simp [List.mem_cons]
    · simp only [List.mem_cons, ih]
      tauto

theorem perm_insertByTsDesc {α : Type} (key : α → String) (x : α) (l : List α) :
    List.Perm (insertByTsDesc key x l) (x :: l) := by
  induction l with
  | nil => exact List.Perm.refl _
  | cons n ns ih =>
    unfold insertByTsDesc
    split
    · exact List.Perm.refl _
    · exact List.Perm.trans (List.Perm.cons n ih) (List.Perm.swap x n ns)

theorem perm_sortByTsDesc {α : Type} (key : α → String) (l : List α) :
    List.Perm (sortByTsDesc key l) l := by
  induction l with
  | nil => exact List.Perm.refl _
  | cons x xs ih =>
    exact List.Perm.trans (perm_insertByTsDesc key x (sortByTsDesc key xs))
      (List.Perm.cons x ih)

theorem mem_sortByTsDesc {α : Type} (key : α → String) (a : α) (l : List α) :
    a ∈ sortByTsDesc key l ↔ a ∈ l :=
  (perm_sortByTsDesc key l).mem_iff

theorem length_sortByTsDesc {α : Type} (key : α → String) (l : List α) :
    (sortByTsDesc key l).length = l.length :=
  (perm_sortByTsDesc key l).length_eq

theorem pairwise_insertByTsDesc {α : Type} (key : α → String) (x : α)
    {l : List α} (h : l.Pairwise (fun a b => key b ≤ key a)) :
    (insertByTsDesc key x l).Pairwise (fun a b => key b ≤ key a) := by
  induction l with
  | nil => simp [insertByTsDesc]
  | cons n ns ih =>
    rw [List.pairwise_cons] at h
    obtain ⟨hn, hns⟩ := h
    by_cases hle : key n ≤ key x
    · simp only [insertByTsDesc, hle, if_true]
      rw [List.pairwise_cons]
      refine ⟨?_, List.Pairwise.cons hn hns⟩
      intro b hb
      rcases List.mem_cons.mp hb with rfl | hb'
      · exact hle
      · exact le_trans (hn b hb') hle
    · simp only [insertByTsDesc, hle, if_false]
      rw [List.pairwise_cons]
      refine ⟨?_, ih hns⟩
      intro b hb
      rcases (mem_insertByTsDesc key x b ns).mp hb with rfl | hb'
      · exact le_of_not_le hle
      · exact hn b hb'

theorem pairwise_sortByTsDesc {α : Type} (key : α → String) (l : List α) :
    (sortByTsDesc key l).Pairwise (fun a b => key b ≤ key a) := by
  induction l with
  | nil => simp [sortByTsDesc]
  | cons x xs ih => exact pairwise_insertByTsDesc key x ih

theorem filter_insertByTsDesc {α : Type} (key : α → String) (x : α)
    (t : String) (l : List α) :
    (insertByTsDesc key x l).filter (fun a => decide (key a = t)) =
      if key x = t then x :: l.filter (fun a => decide (key a = t))
      else l.filter (fun a => decide (key a = t)) := by
  induction l with
  | nil =>
    by_cases hx : key x = t <;> simp [insertByTsDesc, hx]
  | cons n ns ih =>
    by_cases hle : key n ≤ key x
    · simp only [insertByTsDesc, hle, if_true]
      by_cases hx : key x = t <;> simp [hx, List.filter_cons]
    · have hlt : key x < key n := lt_of_not_le hle
      simp only [insertByTsDesc, hle, if_false]
      by_cases hn : key n = t
      · have hx : key x ≠ t := by
          intro hxt
          exact absurd (hxt.trans hn.symm) (ne_of_lt hlt)
        simp [List.filter_cons, hn, hx, ih]
      · simp [List.filter_cons, hn, ih]

theorem filter_sortByTsDesc {α : Type} (key : α → String) (t : String)
    (l : List α) :
    (sortByTsDesc key l).filter (fun a => decide (key a = t)) =
      l.filter (fun a => decide (key a = t)) := by
  induction l with
  | nil => rfl
  | cons x xs ih =>
    simp only [sortByTsDesc, filter_insertByTsDesc, ih, List.filter_cons]
    by_cases hx : key x = t <;> simp [hx]

/-! ### Loop decomposition and bucket monotonicity for the reverter -/

theorem processMoves_nil (fs : FS) (r : RevertResult) :
    processMoves fs r [] = (fs, r) := rfl

theorem processMoves_cons (fs : FS) (r : RevertResult) (m : MoveRecord)
    (ms : List MoveRecord) :
    processMoves fs r (m :: ms) =
      processMoves (revertMoveStep fs r m).1 (revertMoveStep fs r m).2 ms := rfl

theorem processMoves_append (fs : FS) (r : RevertResult)
    (xs ys : List MoveRecord) :
    processMoves fs r (xs ++ ys) =
      processMoves (processMoves fs r xs).1 (processMoves fs r xs).2 ys := by
  induction xs generalizing fs r with
  | nil => rfl
  | cons m ms ih => simp [processMoves_cons, ih]

theorem processFolders_nil (fs : FS) (r : RevertResult) :
    processFolders fs r [] = (fs, r) := rfl

theorem processFolders_cons (fs : FS) (r : RevertResult)
    (fe : FolderCreationRecord) (fes : List FolderCreationRecord) :
    processFolders fs r (fe :: fes) =
      processFolders (revertFolderStep fs r fe).1 (revertFolderStep fs r fe).2 fes := rfl

theorem processFolders_append (fs : FS) (r : RevertResult)
    (xs ys : List FolderCreationRecord) :
    processFolders fs r (xs ++ ys) =
      processFolders (processFolders fs r xs).1 (processFolders fs r xs).2 ys := by
  induction xs generalizing fs r with
  | nil => rfl
  | cons fe fes ih => simp [processFolders_cons, ih]

theorem revertMoveStep_mono (fs : FS) (r : RevertResult) (m : MoveRecord) :
    (∀ x ∈ r.reverted, x ∈ (revertMoveStep fs r m).2.reverted) ∧
    (∀ x ∈ r.notFound, x ∈ (revertMoveStep fs r m).2.notFound) ∧
    (∀ x ∈ r.errors, x ∈ (revertMoveStep fs r m).2.errors) ∧
    (∀ x ∈ r.foldersRemoved, x ∈ (revertMoveStep fs r m).2.foldersRemoved) := by
  unfold revertMoveStep
  split <;> simp_all [List.mem_append]

theorem revertFolderStep_mono (fs : FS) (r : RevertResult)
    (fe : FolderCreationRecord) :
    (∀ x ∈ r.reverted, x ∈ (revertFolderStep fs r fe).2.reverted) ∧
    (∀ x ∈ r.notFound, x ∈ (revertFolderStep fs r fe).2.notFound) ∧
    (∀ x ∈ r.errors, x ∈ (revertFolderStep fs r fe).2.errors) ∧
    (∀ x ∈ r.foldersRemoved, x ∈ (revertFolderStep fs r fe).2.foldersRemoved) := by
  unfold revertFolderStep
  split
  · split <;> simp_all [List.mem_append]
  · simp_all [List.mem_append]

theorem processMoves_mono (fs : FS) (r : RevertResult) (ms : List MoveRecord) :
    (∀ x ∈ r.reverted, x ∈ (processMoves fs r ms).2.reverted) ∧
    (∀ x ∈ r.notFound, x ∈ (processMoves fs r ms).2.notFound) ∧
    (∀ x ∈ r.errors, x ∈ (processMoves fs r ms).2.errors) ∧
    (∀ x ∈ r.foldersRemoved, x ∈ (processMoves fs r ms).2.foldersRemoved) := by
  induction ms generalizing fs r with
  | nil => simp [processMoves_nil]
  | cons m ms ih =>
    rw [processMoves_cons]
    obtain ⟨s1, s2, s3, s4⟩ := revertMoveStep_mono fs r m
    obtain ⟨i1, i2, i3, i4⟩ := ih (revertMoveStep fs r m).1 (revertMoveStep fs r m).2
    exact ⟨fun x hx => i1 x (s1 x hx), fun x hx => i2 x (s2 x hx),
           fun x hx => i3 x (s3 x hx), fun x hx => i4 x (s4 x hx)⟩

theorem processFolders_mono (fs : FS) (r : RevertResult)
    (fes : List FolderCreationRecord) :
    (∀ x ∈ r.reverted, x ∈ (processFolders fs r fes).2.reverted) ∧
    (∀ x ∈ r.notFound, x ∈ (processFolders fs r fes).2.notFound) ∧
    (∀ x ∈ r.errors, x ∈ (processFolders fs r fes).2.errors) ∧
    (∀ x ∈ r.foldersRemoved, x ∈ (processFolders fs r fes).2.foldersRemoved) := by
  induction fes generalizing fs r with
  | nil => simp [processFolders_nil]
  | cons fe fes ih =>
    rw [processFolders_cons]
    obtain ⟨s1, s2, s3, s4⟩ := revertFolderStep_mono fs r fe
    obtain ⟨i1, i2, i3, i4⟩ := ih (revertFolderStep fs r fe).1 (revertFolderStep fs r fe).2
    exact ⟨fun x hx => i1 x (s1 x hx), fun x hx => i2 x (s2 x hx),
           fun x hx => i3 x (s3 x hx), fun x hx => i4 x (s4 x hx)⟩

/-! ### Ledger append (C3) -/

theorem moveFilesToDir_ledger_out (fs : FS) (base : Path) (files : List String)
    (tgt : String) (L : Ledger) (ts werr : String) :
    (moveFilesToDir fs base files tgt (some L) ts true werr).2.2 =
      some { moves := L.moves ++ (moveFilesToDir fs base files tgt (some L) ts true werr).1.moves,
             foldersCreated := L.foldersCreated } := rfl

/-- C3: writing through move_files_to_dir with an existing ledger of moves M
appends this call's successful moves N, producing exactly M ++ N in call
order; a second call appends again, so [m1] then [m2] yields [m1, m2],
never an overwrite or a deduplication. -/
theorem ledger_monotonic_append (fs fs2 : FS) (base base2 : Path)
    (files files2 : List String) (tgt tgt2 : String) (L : Ledger)
    (ts ts2 werr werr2 : String) :
    (moveFilesToDir fs base files tgt (some L) ts true werr).2.2 =
      some { moves := L.moves ++ (moveFilesToDir fs base files tgt (some L) ts true werr).1.moves,
             foldersCreated := L.foldersCreated }
    ∧ (moveFilesToDir fs2 base2 files2 tgt2
        ((moveFilesToDir fs base files tgt (some L) ts true werr).2.2) ts2 true werr2).2.2 =
      some { moves := (L.moves ++ (moveFilesToDir fs base files tgt (some L) ts true werr).1.moves)
                ++ (moveFilesToDir fs2 base2 files2 tgt2
                    ((moveFilesToDir fs base files tgt (some L) ts true werr).2.2) ts2 true werr2).1.moves,
             foldersCreated := L.foldersCreated } := by
  constructor
  · exact moveFilesToDir_ledger_out fs base files tgt L ts werr
  · rw [moveFilesToDir_ledger_out fs base files tgt L ts werr]
    exact moveFilesToDir_ledger_out fs2 base2 files2 tgt2
      { moves := L.moves ++ (moveFilesToDir fs base files tgt (some L) ts true werr).1.moves,
        foldersCreated := L.foldersCreated } ts2 werr2

/-! ### Revert processing order (C8) -/

/-- C8: revert_moves sorts the ledger's moves by timestamp and processes them
in descending order; the sort is a permutation of the recorded moves, is
descending on timestamps, and is stable (records with equal timestamps keep
their original append order), so revert is a deterministic function of the
ledger and the filesystem state. -/
theorem revert_sort_desc_stable (ms : List MoveRecord) (t : String) (fs : FS)
    (led : Ledger) :
    List.Perm (sortByTsDesc MoveRecord.timestamp ms) ms
    ∧ (sortByTsDesc MoveRecord.timestamp ms).Pairwise
        (fun a b => b.timestamp ≤ a.timestamp)
    ∧ (sortByTsDesc MoveRecord.timestamp ms).filter (fun a => decide (a.timestamp = t))
        = ms.filter (fun a => decide (a.timestamp = t))
    ∧ (led.moves.isEmpty = false →
        revertMoves fs led =
          processFolders
            (processMoves fs emptyRevertResult
              (sortByTsDesc MoveRecord.timestamp led.moves)).1
            (processMoves fs emptyRevertResult
              (sortByTsDesc MoveRecord.timestamp led.moves)).2
            (sortByTsDesc FolderCreationRecord.timestamp led.foldersCreated)) := by
  refine ⟨perm_sortByTsDesc _ _, pairwise_sortByTsDesc _ _,
    filter_sortByTsDesc _ _ _, fun h => ?_⟩
  simp [revertMoves, h]

def fsC8 : FS := { files := [["b", "imp", "a.txt"]], dirs := [["b"], ["b", "imp"]] }

def ledC8 : Ledger :=
  { moves := [{ timestamp := "t1", source := ["b", "a.txt"],
                target := ["b", "imp", "a.txt"], filename := "a.txt" }],
    foldersCreated := [] }

theorem revert_sort_desc_stable_witness :
    ledC8.moves.isEmpty = false
    ∧ revertMoves fsC8 ledC8 =
        processFolders
          (processMoves fsC8 emptyRevertResult
            (sortByTsDesc MoveRecord.timestamp ledC8.moves)).1
          (processMoves fsC8 emptyRevertResult
            (sortByTsDesc MoveRecord.timestamp ledC8.moves)).2
          (sortByTsDesc FolderCreationRecord.timestamp ledC8.foldersCreated) :=
  ⟨by decide, (revert_sort_desc_stable [] "" fsC8 ledC8).2.2.2 (by decide)⟩

/-! ### Ledger write failure (C9, corrected) -/

def fsC9 : FS := { files := [], dirs := [["b"]] }

def ledC9 : Ledger := { moves := [], foldersCreated := [] }

/-- C9 counterexample: when the ledger write of create_folders fails, the
exception is caught at file_organizer.py lines 65-66 and only a console
warning is printed: the caller receives the ordinary name-to-path mapping,
no raised error, and the ledger file is silently left unchanged — the
IOError is not surfaced to the caller. -/
theorem ledger_write_error_swallowed_cex :
    (createFolders fsC9 ["b"] ["important"] (some ledC9) "t0" false).raised = none
    ∧ (createFolders fsC9 ["b"] ["important"] (some ledC9) "t0" false).ledger = some ledC9
    ∧ (createFolders fsC9 ["b"] ["important"] (some ledC9) "t0" false).folders
        = (createFolders fsC9 ["b"] ["important"] (some ledC9) "t0" true).folders := by
  refine ⟨rfl, by decide, rfl⟩

/-- C9 amended: a failing ledger write is reported by move_files_to_dir as a
"Failed to save log file: <cause>" entry in the returned errors bucket
(lines 166-168), while create_folders swallows the failure entirely,
surfacing nothing to its caller (lines 65-66); in both cases the ledger
file is left unchanged and no exception propagates. -/
theorem ledger_write_error_amended (fs : FS) (base : Path) (files : List String)
    (tgt : String) (L : Ledger) (ts werr : String) (fs2 : FS) (base2 : Path)
    (names : List String) (led2 : Option Ledger) (ts2 : String) :
    ("Failed to save log file: " ++ werr)
        ∈ (moveFilesToDir fs base files tgt (some L) ts false werr).1.errors
    ∧ (moveFilesToDir fs base files tgt (some L) ts false werr).2.2 = some L
    ∧ (createFolders fs2 base2 names led2 ts2 false).raised = none := by
  refine ⟨?_, rfl, rfl⟩
  simp [moveFilesToDir]

/-! ### Ledger file deletion on revert (C4, code bug) -/

def fsC4 : FS := { files := [["d", "g", "x.txt"]], dirs := [["d"], ["d", "g"]] }

def ledC4 : Ledger :=
  { moves := [],
    foldersCreated := [{ timestamp := "t1", folderName := "g",
                         folderPath := ["d", "g"] }] }

/-- C4: revert_group_organization guards the unlink of group_move_log.json
with result.get("error"), but revert_moves never populates an "error" key,
so the guard is always true: on this input the reversal reports a per-item
error (the created folder is non-empty and is left in place), and the group
ledger file is deleted nonetheless.  The initial-run revert command of
dlm.py never deletes its ledger file on any input. -/
theorem group_log_deleted_despite_errors :
    (revertGroupOrganization fsC4 (some ledC4)).2.1.errors
      = ["Folder not empty, cannot remove: d/g"]
    ∧ (revertGroupOrganization fsC4 (some ledC4)).2.2.2 = true
    ∧ isDir (revertGroupOrganization fsC4 (some ledC4)).2.2.1 ["d", "g"] = true
    ∧ ∀ (fs : FS) (led : Option Ledger), (revertOrganization fs led).2.2 = false := by
  refine ⟨by decide, rfl, by decide, ?_⟩
  intro fs led
  cases led <;> rfl

/-! ### Missing source containment (C6) -/

theorem processFiles_nil (fs : FS) (base : Path) (td ts : String) :
    processFiles fs base td ts [] = (fs, [], []) := rfl

theorem processFiles_cons (fs : FS) (base : Path) (td ts f : String)
    (rest : List String) :
    processFiles fs base td ts (f :: rest) =
      ((processFiles (moveOneFile fs base td ts f).1 base td ts rest).1,
       (moveOneFile fs base td ts f).2.1.toList
         ++ (processFiles (moveOneFile fs base td ts f).1 base td ts rest).2.1,
       (moveOneFile fs base td ts f).2.2.toList
         ++ (processFiles (moveOneFile fs base td ts f).1 base td ts rest).2.2) := rfl

theorem processFiles_append (fs : FS) (base : Path) (td ts : String)
    (xs ys : List String) :
    processFiles fs base td ts (xs ++ ys) =
      ((processFiles (processFiles fs base td ts xs).1 base td ts ys).1,
       (processFiles fs base td ts xs).2.1
         ++ (processFiles (processFiles fs base td ts xs).1 base td ts ys).2.1,
       (processFiles fs base td ts xs).2.2
         ++ (processFiles (processFiles fs base td ts xs).1 base td ts ys).2.2) := by
  induction xs generalizing fs with
  | nil => simp [processFiles_nil]
  | cons f rest ih =>
    simp only [List.cons_append, processFiles_cons, ih, List.append_assoc]

theorem moveOneFile_missing (fs : FS) (base : Path) (td ts f : String)
    (h : pathEx fs (base ++ [f]) = false) :
    moveOneFile fs base td ts f = (fs, none, some ("Source file not found: " ++ f)) := by
  simp [moveOneFile, h]

theorem moveFilesToDir_results_true (fs : FS) (base : Path) (files : List String)
    (tgt : String) (led : Option Ledger) (ts werr : String) :
    (moveFilesToDir fs base files tgt led ts true werr).1.errors
      = (processFiles (mkdir fs (base ++ [tgt])) base tgt ts files).2.2
    ∧ (moveFilesToDir fs base files tgt led ts true werr).1.moves
      = (processFiles (mkdir fs (base ++ [tgt])) base tgt ts files).2.1 := by
  cases led <;> exact ⟨rfl, rfl⟩

/-- C6: if the source of file f does not exist when its turn comes in the
batch, move_files_to_dir records exactly the error "Source file not found:
f" at that position in the errors bucket, appends no MoveRecord for that
step, and processes the remaining files from the unchanged filesystem state
(so they still move as they would have without f in the batch). -/
theorem move_missing_source_containment (fs : FS) (base : Path)
    (pre post : List String) (f tgt : String) (led : Option Ledger)
    (ts werr : String)
    (h : pathEx (processFiles (mkdir fs (base ++ [tgt])) base tgt ts pre).1
          (base ++ [f]) = false) :
    (moveFilesToDir fs base (pre ++ f :: post) tgt led ts true werr).1.errors
      = (processFiles (mkdir fs (base ++ [tgt])) base tgt ts pre).2.2
        ++ ("Source file not found: " ++ f)
          :: (processFiles (processFiles (mkdir fs (base ++ [tgt])) base tgt ts pre).1
                base tgt ts post).2.2
    ∧ (moveFilesToDir fs base (pre ++ f :: post) tgt led ts true werr).1.moves
      = (processFiles (mkdir fs (base ++ [tgt])) base tgt ts pre).2.1
        ++ (processFiles (processFiles (mkdir fs (base ++ [tgt])) base tgt ts pre).1
              base tgt ts post).2.1 := by
  have hp := processFiles_append (mkdir fs (base ++ [tgt])) base tgt ts pre (f :: post)
  rw [processFiles_cons, moveOneFile_missing _ _ _ _ _ h] at hp
  constructor
  · rw [(moveFilesToDir_results_true fs base (pre ++ f :: post) tgt led ts werr).1]
    exact congrArg (fun x => x.2.2) hp
  · rw [(moveFilesToDir_results_true fs base (pre ++ f :: post) tgt led ts werr).2]
    exact congrArg (fun x => x.2.1) hp

def fsC6 : FS := { files := [["b", "a.txt"], ["b", "c.txt"]], dirs := [["b"]] }

theorem move_missing_source_containment_witness :
    pathEx (processFiles (mkdir fsC6 (["b"] ++ ["t"])) ["b"] "t" "ts" ["a.txt"]).1
        (["b"] ++ ["nope.txt"]) = false
    ∧ (moveFilesToDir fsC6 ["b"] (["a.txt"] ++ "nope.txt" :: ["c.txt"]) "t" none
        "ts" true "").1.errors
      = (processFiles (mkdir fsC6 (["b"] ++ ["t"])) ["b"] "t" "ts" ["a.txt"]).2.2
        ++ ("Source file not found: " ++ "nope.txt")
          :: (processFiles (processFiles (mkdir fsC6 (["b"] ++ ["t"])) ["b"] "t" "ts"
                ["a.txt"]).1 ["b"] "t" "ts" ["c.txt"]).2.2
    ∧ (moveFilesToDir fsC6 ["b"] (["a.txt"] ++ "nope.txt" :: ["c.txt"]) "t" none
        "ts" true "").1.moves
      = (processFiles (mkdir fsC6 (["b"] ++ ["t"])) ["b"] "t" "ts" ["a.txt"]).2.1
        ++ (processFiles (processFiles (mkdir fsC6 (["b"] ++ ["t"])) ["b"] "t" "ts"
              ["a.txt"]).1 ["b"] "t" "ts" ["c.txt"]).2.1 :=
  ⟨by decide,
   (move_missing_source_containment fsC6 ["b"] ["a.txt"] ["c.txt"] "nope.txt" "t"
     none "ts" "" (by decide)).1,
   (move_missing_source_containment fsC6 ["b"] ["a.txt"] ["c.txt"] "nope.txt" "t"
     none "ts" "" (by decide)).2⟩

/-! ### Idempotent folder creation (C7) -/

theorem pathEx_mkdir_self (fs : FS) (p : Path) : pathEx (mkdir fs p) p = true :=
  (pathEx_true_iff _ _).mpr (Or.inr ((mem_dirs_mkdir _ _ _).mpr (Or.inl rfl)))

theorem pathEx_mkdir_mono (fs : FS) (p q : Path) (h : pathEx fs q = true) :
    pathEx (mkdir fs p) q = true := by
  rcases (pathEx_true_iff fs q).mp h with hf | hd
  · exact (pathEx_true_iff _ q).mpr (Or.inl (by rw [files_mkdir]; exact hf))
  · exact (pathEx_true_iff _ q).mpr (Or.inr ((mem_dirs_mkdir fs p q).mpr (Or.inr hd)))

theorem pathEx_mkdir_ne (fs : FS) (p q : Path) (h : q ≠ p) :
    pathEx (mkdir fs p) q = pathEx fs q := by
  have hiff : (q ∈ (mkdir fs p).dirs) ↔ (q ∈ fs.dirs) := by
    rw [mem_dirs_mkdir]; simp [h]
  unfold pathEx
  rw [files_mkdir, decide_eq_decide.mpr hiff]

theorem sameBaseChild_inj (base : Path) (n m : String)
    (h : base ++ [n] = base ++ [m]) : n = m := by
  simpa using List.append_cancel_left h

theorem createFoldersLoop_nil (fs : FS) (base : Path)
    (acc : List (String × Path)) (created : List String) :
    createFoldersLoop fs base [] acc created = (fs, acc, created) := rfl

theorem createFoldersLoop_cons_exists (fs : FS) (base : Path) (n : String)
    (rest : List String) (acc : List (String × Path)) (created : List String)
    (h : pathEx fs (base ++ [n]) = true) :
    createFoldersLoop fs base (n :: rest) acc created
      = createFoldersLoop fs base rest (setAssoc acc n (base ++ [n])) created := by
  simp [createFoldersLoop, h]

theorem createFoldersLoop_cons_absent (fs : FS) (base : Path) (n : String)
    (rest : List String) (acc : List (String × Path)) (created : List String)
    (h : pathEx fs (base ++ [n]) = false) :
    createFoldersLoop fs base (n :: rest) acc created
      = createFoldersLoop (mkdir fs (base ++ [n])) base rest
          (setAssoc acc n (base ++ [n])) (created ++ [n]) := by
  simp [createFoldersLoop, h]

theorem createFoldersLoop_pathEx_mono (base : Path) (names : List String)
    (q : Path) :
    ∀ (fs : FS) (acc : List (String × Path)) (created : List String),
      pathEx fs q = true →
      pathEx (createFoldersLoop fs base names acc created).1 q = true := by
  induction names with
  | nil => intro fs acc created h; exact h
  | cons n rest ih =>
    intro fs acc created h
    cases hn : pathEx fs (base ++ [n]) with
    | true =>
      rw [createFoldersLoop_cons_exists fs base n rest acc created hn]
      exact ih fs _ created h
    | false =>
      rw [createFoldersLoop_cons_absent fs base n rest acc created hn]
      exact ih _ _ _ (pathEx_mkdir_mono fs _ q h)

theorem createFoldersLoop_all_exist_after (base : Path) (names : List String) :
    ∀ (fs : FS) (acc : List (String × Path)) (created : List String),
      ∀ n ∈ names,
        pathEx (createFoldersLoop fs base names acc created).1 (base ++ [n]) = true := by
  induction names with
  | nil => intro fs acc created n hn; cases hn
  | cons m rest ih =>
    intro fs acc created n hn
    rcases List.mem_cons.mp hn with rfl | hn'
    · cases hm : pathEx fs (base ++ [n]) with
      | true =>
        rw [createFoldersLoop_cons_exists fs base n rest acc created hm]
        exact createFoldersLoop_pathEx_mono base rest _ fs _ created hm
      | false =>
        rw [createFoldersLoop_cons_absent fs base n rest acc created hm]
        exact createFoldersLoop_pathEx_mono base rest _ _ _ _ (pathEx_mkdir_self fs _)
    · cases hm : pathEx fs (base ++ [m]) with
      | true =>
        rw [createFoldersLoop_cons_exists fs base m rest acc created hm]
        exact ih fs _ created n hn'
      | false =>
        rw [createFoldersLoop_cons_absent fs base m rest acc created hm]
        exact ih _ _ _ n hn'

theorem createFoldersLoop_when_all_exist (base : Path) (names : List String) :
    ∀ (fs : FS) (acc : List (String × Path)) (created : List String),
      (∀ n ∈ names, pathEx fs (base ++ [n]) = true) →
      (createFoldersLoop fs base names acc created).1 = fs
      ∧ (createFoldersLoop fs base names acc created).2.2 = created := by
  induction names with
  | nil => intro fs acc created _; exact ⟨rfl, rfl⟩
  | cons m rest ih =>
    intro fs acc created hall
    have hm : pathEx fs (base ++ [m]) = true := hall m (List.mem_cons_self m rest)
    rw [createFoldersLoop_cons_exists fs base m rest acc created hm]
    exact ih fs _ created (fun n hn => hall n (List.mem_cons_of_mem m hn))

theorem createFoldersLoop_created_of_nodup (base : Path) (names : List String) :
    ∀ (fs : FS) (acc : List (String × Path)) (created : List String),
      names.Nodup →
      (createFoldersLoop fs base names acc created).2.2
        = created ++ names.filter (fun n => !(pathEx fs (base ++ [n]))) := by
  induction names with
  | nil => intro fs acc created _; simp [createFoldersLoop_nil]
  | cons m rest ih =>
    intro fs acc created hnd
    obtain ⟨hm, hnd'⟩ := List.nodup_cons.mp hnd
    cases h : pathEx fs (base ++ [m]) with
    | true =>
      rw [createFoldersLoop_cons_exists fs base m rest acc created h]
      rw [ih fs _ created hnd']
      simp [List.filter_cons, h]
    | false =>
      rw [createFoldersLoop_cons_absent fs base m rest acc created h]
      rw [ih _ _ _ hnd']
      have hfilter : rest.filter (fun n => !(pathEx (mkdir fs (base ++ [m])) (base ++ [n])))
          = rest.filter (fun n => !(pathEx fs (base ++ [n]))) := by
        apply List.filter_congr
        intro n hn
        have hne : base ++ [n] ≠ base ++ [m] := by
          intro heq
          exact hm (sameBaseChild_inj base n m heq ▸ hn)
        rw [pathEx_mkdir_ne fs _ _ hne]
      rw [hfilter]
      simp [List.filter_cons, h]

theorem lookupAssoc_setAssoc (acc : List (String × Path)) (k : String) (v : Path)
    (k' : String) :
    lookupAssoc (setAssoc acc k v) k' = if k = k' then some v else lookupAssoc acc k' := by
  induction acc with
  | nil =>
    by_cases h : k = k' <;> simp [setAssoc, lookupAssoc, h]
  | cons kv rest ih =>
    obtain ⟨k0, v0⟩ := kv
    by_cases h0 : k0 = k
    · subst h0
      by_cases h : k0 = k' <;> simp [setAssoc, lookupAssoc, h]
    · by_cases h : k0 = k'
      · subst h
        have : ¬ k = k0 := fun hh => h0 hh.symm
        simp [setAssoc, lookupAssoc, h0, this]
      · simp [setAssoc, lookupAssoc, h0, h, ih]

theorem createFoldersLoop_lookup_inv (base : Path) (names : List String)
    (n : String) :
    ∀ (fs : FS) (acc : List (String × Path)) (created : List String),
      lookupAssoc acc n = some (base ++ [n]) →
      lookupAssoc (createFoldersLoop fs base names acc created).2.1 n
        = some (base ++ [n]) := by
  induction names with
  | nil => intro fs acc created h; exact h
  | cons m rest ih =>
    intro fs acc created h
    have hstep : lookupAssoc (setAssoc acc m (base ++ [m])) n = some (base ++ [n]) := by
      rw [lookupAssoc_setAssoc]
      by_cases hmn : m = n
      · subst hmn; simp
      · simp [hmn, h]
    cases hm : pathEx fs (base ++ [m]) with
    | true =>
      rw [createFoldersLoop_cons_exists fs base m rest acc created hm]
      exact ih fs _ created hstep
    | false =>
      rw [createFoldersLoop_cons_absent fs base m rest acc created hm]
      exact ih _ _ _ hstep

theorem createFoldersLoop_lookup (base : Path) (names : List String) (n : String) :
    ∀ (fs : FS) (acc : List (String × Path)) (created : List String),
      n ∈ names →
      lookupAssoc (createFoldersLoop fs base names acc created).2.1 n
        = some (base ++ [n]) := by
  induction names with
  | nil => intro fs acc created h; cases h
  | cons m rest ih =>
    intro fs acc created hn
    have hstep : lookupAssoc (setAssoc acc m (base ++ [m])) n = some (base ++ [n])
        ∨ n ∈ rest := by
      rcases List.mem_cons.mp hn with rfl | hn'
      · left; rw [lookupAssoc_setAssoc]; simp
      · right; exact hn'
    cases hm : pathEx fs (base ++ [m]) with
    | true =>
      rw [createFoldersLoop_cons_exists fs base m rest acc created hm]
      rcases hstep with hl | hr
      · exact createFoldersLoop_lookup_inv base rest n fs _ created hl
      · exact ih fs _ created hr
    | false =>
      rw [createFoldersLoop_cons_absent fs base m rest acc created hm]
      rcases hstep with hl | hr
      · exact createFoldersLoop_lookup_inv base rest n _ _ _ hl
      · exact ih _ _ _ hr

theorem createFolders_fs_eq (fs : FS) (base : Path) (names : List String)
    (led : Option Ledger) (ts : String) (wOk : Bool) :
    (createFolders fs base names led ts wOk).fs
      = (createFoldersLoop fs base names [] []).1 := by
  cases led <;> rfl

theorem createFolders_folders_eq (fs : FS) (base : Path) (names : List String)
    (led : Option Ledger) (ts : String) (wOk : Bool) :
    (createFolders fs base names led ts wOk).folders
      = (createFoldersLoop fs base names [] []).2.1 := by
  cases led <;> rfl

theorem createFolders_raised_eq (fs : FS) (base : Path) (names : List String)
    (led : Option Ledger) (ts : String) (wOk : Bool) :
    (createFolders fs base names led ts wOk).raised = none := by
  cases led <;> rfl

theorem createFolders_ledger_eq (fs : FS) (base : Path) (names : List String)
    (L : Ledger) (ts : String) :
    (createFolders fs base names (some L) ts true).ledger
      = some { moves := L.moves,
               foldersCreated := L.foldersCreated
                 ++ (createFoldersLoop fs base names [] []).2.2.map
                      (fun n => { timestamp := ts, folderName := n,
                                  folderPath := base ++ [n] }) } := by
  cases hc : (createFoldersLoop fs base names [] []).2.2 with
  | nil => simp [createFolders, hc]
  | cons a as => simp [createFolders, hc]

theorem createFolders_ledger_stable (fs : FS) (base : Path) (names : List String)
    (led : Option Ledger) (ts : String) (wOk : Bool)
    (h : (createFoldersLoop fs base names [] []).2.2 = []) :
    (createFolders fs base names led ts wOk).ledger = led := by
  cases led with
  | none => rfl
  | some L => simp [createFolders, h]

/-- C7: create_folders is idempotent — after a first call (with a working
ledger write) that logs exactly one FolderCreationRecord per folder absent
beforehand, a second call with the same names changes neither the
filesystem nor the ledger, never surfaces an error, and both calls map
every requested name to its resolved path base_dir/name. -/
theorem create_folders_idempotent (fs : FS) (base : Path) (names : List String)
    (L : Ledger) (ts ts2 : String) (wOk2 : Bool) (hnd : names.Nodup) :
    (createFolders fs base names (some L) ts true).ledger
      = some { moves := L.moves,
               foldersCreated := L.foldersCreated
                 ++ (names.filter (fun n => !(pathEx fs (base ++ [n])))).map
                      (fun n => { timestamp := ts, folderName := n,
                                  folderPath := base ++ [n] }) }
    ∧ (createFolders (createFolders fs base names (some L) ts true).fs base names
        (createFolders fs base names (some L) ts true).ledger ts2 wOk2).fs
      = (createFolders fs base names (some L) ts true).fs
    ∧ (createFolders (createFolders fs base names (some L) ts true).fs base names
        (createFolders fs base names (some L) ts true).ledger ts2 wOk2).ledger
      = (createFolders fs base names (some L) ts true).ledger
    ∧ (createFolders fs base names (some L) ts true).raised = none
    ∧ (createFolders (createFolders fs base names (some L) ts true).fs base names
        (createFolders fs base names (some L) ts true).ledger ts2 wOk2).raised = none
    ∧ ∀ n ∈ names,
        lookupAssoc (createFolders fs base names (some L) ts true).folders n
          = some (base ++ [n])
        ∧ lookupAssoc (createFolders (createFolders fs base names (some L) ts true).fs
            base names (createFolders fs base names (some L) ts true).ledger
            ts2 wOk2).folders n = some (base ++ [n]) := by
  have hall : ∀ n ∈ names,
      pathEx (createFolders fs base names (some L) ts true).fs (base ++ [n]) = true := by
    intro n hn
    rw [createFolders_fs_eq]
    exact createFoldersLoop_all_exist_after base names fs [] [] n hn
  have hsecondLoop :=
    createFoldersLoop_when_all_exist base names
      (createFolders fs base names (some L) ts true).fs [] []
      (fun n hn => hall n hn)
  refine ⟨?_, ?_, ?_, ?_, ?_, ?_⟩
  · rw [createFolders_ledger_eq, createFoldersLoop_created_of_nodup base names fs [] [] hnd]
    simp
  · rw [createFolders_fs_eq (createFolders fs base names (some L) ts true).fs
      base names _ ts2 wOk2, hsecondLoop.1]
  · exact createFolders_ledger_stable _ base names _ ts2 wOk2 hsecondLoop.2
  · exact createFolders_raised_eq fs base names (some L) ts true
  · exact createFolders_raised_eq _ base names _ ts2 wOk2
  · intro n hn
    constructor
    · rw [createFolders_folders_eq]
      exact createFoldersLoop_lookup base names n fs [] [] hn
    · rw [createFolders_folders_eq]
      exact createFoldersLoop_lookup base names n _ [] [] hn

def fsC7 : FS := { files := [], dirs := [["b"], ["b", "trash"]] }

def ledC7 : Ledger := { moves := [], foldersCreated := [] }

theorem create_folders_idempotent_witness :
    (["important", "trash"] : List String).Nodup
    ∧ (createFolders fsC7 ["b"] ["important", "trash"] (some ledC7) "t0" true).ledger
      = some { moves := ledC7.moves,
               foldersCreated := ledC7.foldersCreated
                 ++ ((["important", "trash"] : List String).filter
                      (fun n => !(pathEx fsC7 (["b"] ++ [n])))).map
                      (fun n => { timestamp := "t0", folderName := n,
                                  folderPath := ["b"] ++ [n] }) }
    ∧ (createFolders (createFolders fsC7 ["b"] ["important", "trash"] (some ledC7)
        "t0" true).fs ["b"] ["important", "trash"]
        (createFolders fsC7 ["b"] ["important", "trash"] (some ledC7) "t0" true).ledger
        "t1" true).ledger
      = (createFolders fsC7 ["b"] ["important", "trash"] (some ledC7) "t0" true).ledger :=
  ⟨by decide,
   (create_folders_idempotent fsC7 ["b"] ["important", "trash"] ledC7 "t0" "t1" true
     (by decide)).1,
   (create_folders_idempotent fsC7 ["b"] ["important", "trash"] ledC7 "t0" "t1" true
     (by decide)).2.2.1⟩

/-! ### Collision-safe renaming (C5) -/

theorem resolveName_least (fs : FS) (tgtDirPath : Path) (stem suf : String) :
    ∀ (fuel k0 k : Nat), k0 ≤ k → k < k0 + fuel →
      pathEx fs (tgtDirPath ++ [renName stem suf k]) = false →
      ∃ j, k0 ≤ j ∧ j ≤ k
        ∧ pathEx fs (tgtDirPath ++ [renName stem suf j]) = false
        ∧ (∀ i, k0 ≤ i → i < j →
            pathEx fs (tgtDirPath ++ [renName stem suf i]) = true)
        ∧ resolveName fs tgtDirPath stem suf fuel k0
            = tgtDirPath ++ [renName stem suf j] := by
  intro fuel
  induction fuel with
  | zero =>
    intro k0 k h1 h2 h3
    exfalso
    omega
  | succ fuel ih =>
    intro k0 k h1 h2 h3
    cases h0 : pathEx fs (tgtDirPath ++ [renName stem suf k0]) with
    | false =>
      refine ⟨k0, le_refl k0, h1, h0, ?_, ?_⟩
      · intro i hi1 hi2
        exfalso
        omega
      · simp [resolveName, h0]
    | true =>
      have hk : k0 ≠ k := by
        intro heq
        rw [heq, h3] at h0
        cases h0
      obtain ⟨j, hj0, hjk, hjf, hjall, hjeq⟩ :=
        ih (k0 + 1) k (by omega) (by omega) h3
      refine ⟨j, by omega, hjk, hjf, ?_, ?_⟩
      · intro i hi1 hi2
        rcases Nat.eq_or_lt_of_le hi1 with heq | hlt
        · rw [← heq]
          exact h0
        · exact hjall i (by omega) hi2
      · simp [resolveName, h0, hjeq]

/-- C5: when both the source file and its plain destination
base_dir/target_dir/filename exist, move_files_to_dir renames the moved file
to {stem}_{j}{suffix} for the least counter j ≥ 1 whose name is unused in
the target directory (all smaller counters being taken), records a
MoveRecord carrying that renamed target path, and leaves both the original
occupant and the newly moved file present under the target directory with
distinct names. -/
theorem move_collision_renames (fs : FS) (base : Path) (tgt ts filename : String)
    (k : Nat) (hsrcf : (base ++ [filename]) ∈ fs.files)
    (htgt : pathEx fs ((base ++ [tgt]) ++ [filename]) = true)
    (hk1 : 1 ≤ k) (hk2 : k < 1 + searchFuel fs)
    (hfree : pathEx fs ((base ++ [tgt]) ++
        [renName (splitStemSuffix filename).1 (splitStemSuffix filename).2 k]) = false) :
    ∃ j, 1 ≤ j ∧ j ≤ k
      ∧ pathEx fs ((base ++ [tgt]) ++
          [renName (splitStemSuffix filename).1 (splitStemSuffix filename).2 j]) = false
      ∧ (∀ i, 1 ≤ i → i < j →
          pathEx fs ((base ++ [tgt]) ++
            [renName (splitStemSuffix filename).1 (splitStemSuffix filename).2 i]) = true)
      ∧ (moveOneFile fs base tgt ts filename).2.1
          = some { timestamp := ts, source := base ++ [filename],
                   target := (base ++ [tgt]) ++
                     [renName (splitStemSuffix filename).1 (splitStemSuffix filename).2 j],
                   filename := filename }
      ∧ ((base ++ [tgt]) ++
          [renName (splitStemSuffix filename).1 (splitStemSuffix filename).2 j])
          ∈ (moveOneFile fs base tgt ts filename).1.files
      ∧ pathEx (moveOneFile fs base tgt ts filename).1 ((base ++ [tgt]) ++ [filename]) = true
      ∧ ((base ++ [tgt]) ++
          [renName (splitStemSuffix filename).1 (splitStemSuffix filename).2 j])
          ≠ (base ++ [tgt]) ++ [filename] := by
  have hsrc : pathEx fs (base ++ [filename]) = true :=
    (pathEx_true_iff _ _).mpr (Or.inl hsrcf)
  obtain ⟨j, hj1, hjk, hjf, hjall, hjeq⟩ :=
    resolveName_least fs (base ++ [tgt]) (splitStemSuffix filename).1
      (splitStemSuffix filename).2 (searchFuel fs) 1 k hk1 hk2 hfree
  have hmo : moveOneFile fs base tgt ts filename
      = (moveFile fs (base ++ [filename])
          ((base ++ [tgt]) ++
            [renName (splitStemSuffix filename).1 (splitStemSuffix filename).2 j]),
         some { timestamp := ts, source := base ++ [filename],
                target := (base ++ [tgt]) ++
                  [renName (splitStemSuffix filename).1 (splitStemSuffix filename).2 j],
                filename := filename }, none) := by
    simp only [moveOneFile, hsrc, htgt, if_true, hjeq]
  have hne : ((base ++ [tgt]) ++
      [renName (splitStemSuffix filename).1 (splitStemSuffix filename).2 j])
      ≠ (base ++ [tgt]) ++ [filename] := by
    intro heq
    rw [heq, htgt] at hjf
    cases hjf
  have hlen : ((base ++ [tgt]) ++ [filename]) ≠ base ++ [filename] := by
    intro heq
    have hl := congrArg List.length heq
    simp [List.length_append] at hl
  have hmv := moveFile_files_of_mem fs
    ((base ++ [tgt]) ++
      [renName (splitStemSuffix filename).1 (splitStemSuffix filename).2 j]) hsrcf
  refine ⟨j, hj1, hjk, hjf, hjall, ?_, ?_, ?_, hne⟩
  · rw [hmo]
  · rw [hmo]
    rw [hmv.1]
    exact List.mem_cons_self _ _
  · rw [hmo]
    rcases (pathEx_true_iff fs _).mp htgt with hf | hd
    · apply (pathEx_true_iff _ _).mpr
      left
      rw [hmv.1]
      exact List.mem_cons_of_mem _ (mem_filter_ne.mpr ⟨hf, hlen⟩)
    · apply (pathEx_true_iff _ _).mpr
      right
      rw [hmv.2]
      exact hd

def fsC5 : FS :=
  { files := [["b", "report.pdf"], ["b", "t", "report.pdf"]],
    dirs := [["b"], ["b", "t"]] }

theorem move_collision_renames_witness :
    ∃ j, 1 ≤ j ∧ j ≤ 1
      ∧ pathEx fsC5 ((["b"] ++ ["t"]) ++
          [renName (splitStemSuffix "report.pdf").1 (splitStemSuffix "report.pdf").2 j]) = false
      ∧ (∀ i, 1 ≤ i → i < j →
          pathEx fsC5 ((["b"] ++ ["t"]) ++
            [renName (splitStemSuffix "report.pdf").1 (splitStemSuffix "report.pdf").2 i]) = true)
      ∧ (moveOneFile fsC5 ["b"] "t" "ts" "report.pdf").2.1
          = some { timestamp := "ts", source := ["b"] ++ ["report.pdf"],
                   target := (["b"] ++ ["t"]) ++
                     [renName (splitStemSuffix "report.pdf").1 (splitStemSuffix "report.pdf").2 j],
                   filename := "report.pdf" }
      ∧ ((["b"] ++ ["t"]) ++
          [renName (splitStemSuffix "report.pdf").1 (splitStemSuffix "report.pdf").2 j])
          ∈ (moveOneFile fsC5 ["b"] "t" "ts" "report.pdf").1.files
      ∧ pathEx (moveOneFile fsC5 ["b"] "t" "ts" "report.pdf").1
          ((["b"] ++ ["t"]) ++ ["report.pdf"]) = true
      ∧ ((["b"] ++ ["t"]) ++
          [renName (splitStemSuffix "report.pdf").1 (splitStemSuffix "report.pdf").2 j])
          ≠ (["b"] ++ ["t"]) ++ ["report.pdf"] :=
  move_collision_renames fsC5 ["b"] "t" "ts" "report.pdf" 1 (by decide) (by decide)
    (by decide) (by decide) (by decide)

/-! ### Revert restores moved files (C1) -/

theorem sortByTsDesc_nil {α : Type} (key : α → String) : sortByTsDesc key [] = [] := rfl

theorem moves_isEmpty_false_of_split (led : Ledger) (pre post : List MoveRecord)
    (m : MoveRecord)
    (hsplit : sortByTsDesc MoveRecord.timestamp led.moves = pre ++ m :: post) :
    led.moves.isEmpty = false := by
  have hlen := congrArg List.length hsplit
  rw [length_sortByTsDesc] at hlen
  cases hm : led.moves with
  | nil =>
    exfalso
    rw [hm] at hlen
    simp [List.length_append] at hlen
    omega
  | cons a as => simp [List.isEmpty]

/-- C1: for each recorded move, taken at its place in the
timestamp-descending processing order of revert_moves: if its target path
still exists when reached, the reverter recreates the source's missing
parent directories, moves the file back to the recorded source path (the
target file entry disappears, the source entry appears), and the success is
recorded in the reverted bucket of the final result; if the target no
longer exists, the filesystem is untouched by that step and the move is
recorded under not_found, not treated as an error. -/
theorem revert_restores_moved_file (fs0 : FS) (led : Ledger)
    (pre post : List MoveRecord) (m : MoveRecord)
    (hsplit : sortByTsDesc MoveRecord.timestamp led.moves = pre ++ m :: post) :
    (pathEx (processMoves fs0 emptyRevertResult pre).1 m.target = true →
      revertedMsg m ∈ (revertMoves fs0 led).2.reverted)
    ∧ (m.target ∈ (processMoves fs0 emptyRevertResult pre).1.files →
      (∀ q ∈ parentsOf m.source,
        q ∈ (revertMoveStep (processMoves fs0 emptyRevertResult pre).1
              (processMoves fs0 emptyRevertResult pre).2 m).1.dirs)
      ∧ m.source ∈ (revertMoveStep (processMoves fs0 emptyRevertResult pre).1
            (processMoves fs0 emptyRevertResult pre).2 m).1.files
      ∧ (m.source ≠ m.target →
          m.target ∉ (revertMoveStep (processMoves fs0 emptyRevertResult pre).1
            (processMoves fs0 emptyRevertResult pre).2 m).1.files))
    ∧ (pathEx (processMoves fs0 emptyRevertResult pre).1 m.target = false →
      (revertMoveStep (processMoves fs0 emptyRevertResult pre).1
        (processMoves fs0 emptyRevertResult pre).2 m).1
        = (processMoves fs0 emptyRevertResult pre).1
      ∧ targetNotFoundMsg m ∈ (revertMoves fs0 led).2.notFound) := by
  have hmnil := moves_isEmpty_false_of_split led pre post m hsplit
  have hrev : revertMoves fs0 led =
      processFolders
        (processMoves fs0 emptyRevertResult
          (sortByTsDesc MoveRecord.timestamp led.moves)).1
        (processMoves fs0 emptyRevertResult
          (sortByTsDesc MoveRecord.timestamp led.moves)).2
        (sortByTsDesc FolderCreationRecord.timestamp led.foldersCreated) := by
    simp [revertMoves, hmnil]
  have hpm : processMoves fs0 emptyRevertResult
      (sortByTsDesc MoveRecord.timestamp led.moves)
      = processMoves
          (revertMoveStep (processMoves fs0 emptyRevertResult pre).1
            (processMoves fs0 emptyRevertResult pre).2 m).1
          (revertMoveStep (processMoves fs0 emptyRevertResult pre).1
            (processMoves fs0 emptyRevertResult pre).2 m).2
          post := by
    rw [hsplit, processMoves_append, processMoves_cons]
  refine ⟨?_, ?_, ?_⟩
  · intro h
    have hmem : revertedMsg m ∈ (revertMoveStep (processMoves fs0 emptyRevertResult pre).1
        (processMoves fs0 emptyRevertResult pre).2 m).2.reverted := by
      simp [revertMoveStep, h]
    have h2 := (processMoves_mono
      (revertMoveStep (processMoves fs0 emptyRevertResult pre).1
        (processMoves fs0 emptyRevertResult pre).2 m).1
      (revertMoveStep (processMoves fs0 emptyRevertResult pre).1
        (processMoves fs0 emptyRevertResult pre).2 m).2 post).1 _ hmem
    rw [hrev, hpm]
    exact (processFolders_mono _ _ _).1 _ h2
  · intro hm
    have h : pathEx (processMoves fs0 emptyRevertResult pre).1 m.target = true :=
      (pathEx_true_iff _ _).mpr (Or.inl hm)
    have hstep1 : (revertMoveStep (processMoves fs0 emptyRevertResult pre).1
        (processMoves fs0 emptyRevertResult pre).2 m).1
        = moveFile (mkdirParents (processMoves fs0 emptyRevertResult pre).1 m.source)
            m.target m.source := by
      simp [revertMoveStep, h]
    have htf : m.target ∈ (mkdirParents (processMoves fs0 emptyRevertResult pre).1
        m.source).files := by
      rw [mkdirParents_files]
      exact hm
    have hmv := moveFile_files_of_mem
      (mkdirParents (processMoves fs0 emptyRevertResult pre).1 m.source) m.source htf
    refine ⟨?_, ?_, ?_⟩
    · intro q hq
      rw [hstep1, hmv.2, mem_dirs_mkdirParents]
      exact Or.inl hq
    · rw [hstep1, hmv.1]
      exact List.mem_cons_self _ _
    · intro hne hbad
      rw [hstep1, hmv.1] at hbad
      rcases List.mem_cons.mp hbad with heq | hmemf
      · exact hne heq.symm
      · exact (mem_filter_ne.mp hmemf).2 rfl
  · intro h
    constructor
    · simp [revertMoveStep, h]
    · have hmem : targetNotFoundMsg m ∈ (revertMoveStep (processMoves fs0 emptyRevertResult pre).1
          (processMoves fs0 emptyRevertResult pre).2 m).2.notFound := by
        simp [revertMoveStep, h]
      have h2 := (processMoves_mono
        (revertMoveStep (processMoves fs0 emptyRevertResult pre).1
          (processMoves fs0 emptyRevertResult pre).2 m).1
        (revertMoveStep (processMoves fs0 emptyRevertResult pre).1
          (processMoves fs0 emptyRevertResult pre).2 m).2 post).2.1 _ hmem
      rw [hrev, hpm]
      exact (processFolders_mono _ _ _).2.1 _ h2

def fsC1 : FS :=
  { files := [["b", "sub", "doc.txt"]], dirs := [["b"], ["b", "sub"]] }

def mC1 : MoveRecord :=
  { timestamp := "t1", source := ["b", "old", "doc.txt"],
    target := ["b", "sub", "doc.txt"], filename := "doc.txt" }

def ledC1 : Ledger := { moves := [mC1], foldersCreated := [] }

theorem revert_restores_moved_file_witness :
    revertedMsg mC1 ∈ (revertMoves fsC1 ledC1).2.reverted
    ∧ mC1.source ∈ (revertMoveStep (processMoves fsC1 emptyRevertResult []).1
        (processMoves fsC1 emptyRevertResult []).2 mC1).1.files
    ∧ (∀ q ∈ parentsOf mC1.source,
        q ∈ (revertMoveStep (processMoves fsC1 emptyRevertResult []).1
          (processMoves fsC1 emptyRevertResult []).2 mC1).1.dirs) := by
  have h := revert_restores_moved_file fsC1 ledC1 [] [] mC1 (by decide)
  exact ⟨h.1 (by decide), (h.2.1 (by decide)).2.1, (h.2.1 (by decide)).1⟩

/-! ### Folder removal guard on revert (C2) -/

/-- The state after the move-reversal pass of revert_moves (lines 204-227). -/
def movePhase (fs0 : FS) (led : Ledger) : FS × RevertResult :=
  processMoves fs0 emptyRevertResult (sortByTsDesc MoveRecord.timestamp led.moves)

/-- The state of the folder-removal pass of revert_moves after handling the
first records of the sorted folder list (lines 229-252). -/
def folderPhaseAt (fs0 : FS) (led : Ledger)
    (preF : List FolderCreationRecord) : FS × RevertResult :=
  processFolders (movePhase fs0 led).1 (movePhase fs0 led).2 preF

theorem folders_isEmpty_false_of_split (led : Ledger)
    (preF postF : List FolderCreationRecord) (fe : FolderCreationRecord)
    (hsplit : sortByTsDesc FolderCreationRecord.timestamp led.foldersCreated
      = preF ++ fe :: postF) :
    led.foldersCreated.isEmpty = false := by
  have hlen := congrArg List.length hsplit
  rw [length_sortByTsDesc] at hlen
  cases hm : led.foldersCreated with
  | nil =>
    exfalso
    rw [hm] at hlen
    simp [List.length_append] at hlen
    omega
  | cons a as => simp [List.isEmpty]

/-- C2: for each recorded folder creation, taken at its place in the
timestamp-descending folder-removal pass of revert_moves: the folder is
deleted exactly when it currently exists, is a directory, and is empty
(then its path is recorded under folders_removed and it disappears from the
filesystem); a non-empty folder is reported in the errors bucket and the
filesystem is left untouched by that step — so revert never deletes a
folder that still contains entries; a missing folder goes to not_found and
is likewise left alone. -/
theorem revert_folder_removal_guard (fs0 : FS) (led : Ledger)
    (preF postF : List FolderCreationRecord) (fe : FolderCreationRecord)
    (hsplit : sortByTsDesc FolderCreationRecord.timestamp led.foldersCreated
      = preF ++ fe :: postF) :
    ((pathEx (folderPhaseAt fs0 led preF).1 fe.folderPath
        && isDir (folderPhaseAt fs0 led preF).1 fe.folderPath) = true →
      (dirEmpty (folderPhaseAt fs0 led preF).1 fe.folderPath = true →
        (revertFolderStep (folderPhaseAt fs0 led preF).1
            (folderPhaseAt fs0 led preF).2 fe).1
          = rmdir (folderPhaseAt fs0 led preF).1 fe.folderPath
        ∧ fe.folderPath ∉ (revertFolderStep (folderPhaseAt fs0 led preF).1
            (folderPhaseAt fs0 led preF).2 fe).1.dirs
        ∧ pathStr fe.folderPath ∈ (revertMoves fs0 led).2.foldersRemoved)
      ∧ (dirEmpty (folderPhaseAt fs0 led preF).1 fe.folderPath = false →
        (revertFolderStep (folderPhaseAt fs0 led preF).1
            (folderPhaseAt fs0 led preF).2 fe).1
          = (folderPhaseAt fs0 led preF).1
        ∧ folderNotEmptyMsg fe ∈ (revertMoves fs0 led).2.errors))
    ∧ ((pathEx (folderPhaseAt fs0 led preF).1 fe.folderPath
        && isDir (folderPhaseAt fs0 led preF).1 fe.folderPath) = false →
      (revertFolderStep (folderPhaseAt fs0 led preF).1
          (folderPhaseAt fs0 led preF).2 fe).1
        = (folderPhaseAt fs0 led preF).1
      ∧ folderNotFoundMsg fe ∈ (revertMoves fs0 led).2.notFound) := by
  have hfnil := folders_isEmpty_false_of_split led preF postF fe hsplit
  have hrev : revertMoves fs0 led =
      processFolders (movePhase fs0 led).1 (movePhase fs0 led).2
        (sortByTsDesc FolderCreationRecord.timestamp led.foldersCreated) := by
    simp [revertMoves, movePhase, hfnil]
  have hfinal : revertMoves fs0 led
      = processFolders
          (revertFolderStep (folderPhaseAt fs0 led preF).1
            (folderPhaseAt fs0 led preF).2 fe).1
          (revertFolderStep (folderPhaseAt fs0 led preF).1
            (folderPhaseAt fs0 led preF).2 fe).2
          postF := by
    rw [hrev, hsplit, processFolders_append, processFolders_cons]
    rfl
  refine ⟨fun hab => ⟨fun hc => ?_, fun hc => ?_⟩, fun hab => ?_⟩
  · have hstep : revertFolderStep (folderPhaseAt fs0 led preF).1
        (folderPhaseAt fs0 led preF).2 fe
        = (rmdir (folderPhaseAt fs0 led preF).1 fe.folderPath,
           { (folderPhaseAt fs0 led preF).2 with
             foldersRemoved := (folderPhaseAt fs0 led preF).2.foldersRemoved
               ++ [pathStr fe.folderPath] }) := by
      simp [revertFolderStep, hab, hc]
    refine ⟨by rw [hstep], ?_, ?_⟩
    · rw [hstep]
      intro hbad
      exact ((mem_dirs_rmdir _ _ _).mp hbad).2 rfl
    · have hmem : pathStr fe.folderPath
          ∈ (revertFolderStep (folderPhaseAt fs0 led preF).1
              (folderPhaseAt fs0 led preF).2 fe).2.foldersRemoved := by
        rw [hstep]
        simp
      rw [hfinal]
      exact (processFolders_mono _ _ postF).2.2.2 _ hmem
  · have hstep1 : (revertFolderStep (folderPhaseAt fs0 led preF).1
        (folderPhaseAt fs0 led preF).2 fe).1 = (folderPhaseAt fs0 led preF).1 := by
      simp [revertFolderStep, hab, hc]
    refine ⟨hstep1, ?_⟩
    have hmem : folderNotEmptyMsg fe
        ∈ (revertFolderStep (folderPhaseAt fs0 led preF).1
            (folderPhaseAt fs0 led preF).2 fe).2.errors := by
      simp [revertFolderStep, hab, hc]
    rw [hfinal]
    exact (processFolders_mono _ _ postF).2.2.1 _ hmem
  · have hstep1 : (revertFolderStep (folderPhaseAt fs0 led preF).1
        (folderPhaseAt fs0 led preF).2 fe).1 = (folderPhaseAt fs0 led preF).1 := by
      simp [revertFolderStep, hab]
    refine ⟨hstep1, ?_⟩
    have hmem : folderNotFoundMsg fe
        ∈ (revertFolderStep (folderPhaseAt fs0 led preF).1
            (folderPhaseAt fs0 led preF).2 fe).2.notFound := by
      simp [revertFolderStep, hab]
    rw [hfinal]
    exact (processFolders_mono _ _ postF).2.1 _ hmem

def fsC2 : FS := { files := [], dirs := [["b"], ["b", "imp"]] }

def feC2 : FolderCreationRecord :=
  { timestamp := "t0", folderName := "imp", folderPath := ["b", "imp"] }

def ledC2 : Ledger := { moves := [], foldersCreated := [feC2] }

theorem revert_folder_removal_guard_witness :
    pathStr feC2.folderPath ∈ (revertMoves fsC2 ledC2).2.foldersRemoved
    ∧ feC2.folderPath ∉ (revertFolderStep (folderPhaseAt fsC2 ledC2 []).1
        (folderPhaseAt fsC2 ledC2 []).2 feC2).1.dirs := by
  have h := revert_folder_removal_guard fsC2 ledC2 [] [] feC2 (by decide)
  exact ⟨((h.1 (by decide)).1 (by decide)).2.2, ((h.1 (by decide)).1 (by decide)).2.1⟩


/-! ### Frame effects of move_files_to_dir and revert (C10) -/

theorem moveOneFile_fs_cases (fs : FS) (base : Path) (td ts f : String) :
    (moveOneFile fs base td ts f).1 = fs
    ∨ ∃ tgtX, (moveOneFile fs base td ts f).1 = moveFile fs (base ++ [f]) tgtX := by
  cases h : pathEx fs (base ++ [f]) with
  | false =>
    left
    simp [moveOneFile, h]
  | true =>
    right
    refine ⟨if pathEx fs ((base ++ [td]) ++ [f]) then
        resolveName fs (base ++ [td]) (splitStemSuffix f).1 (splitStemSuffix f).2
          (searchFuel fs) 1
      else (base ++ [td]) ++ [f], ?_⟩
    simp [moveOneFile, h]

theorem processFiles_dirs_preserved (base : Path) (td ts : String) (p : Path) :
    ∀ (l : List String) (fs : FS), p ∈ fs.dirs → (∀ f ∈ l, base ++ [f] ≠ p) →
      p ∈ (processFiles fs base td ts l).1.dirs := by
  intro l
  induction l with
  | nil => intro fs hp _; exact hp
  | cons f rest ih =>
    intro fs hp hne
    rw [processFiles_cons]
    apply ih
    · rcases moveOneFile_fs_cases fs base td ts f with hcase | ⟨tgtX, hcase⟩
      · rw [hcase]; exact hp
      · rw [hcase]
        exact mem_dirs_moveFile fs _ tgtX p hp
          (fun heq => hne f (List.mem_cons_self f rest) heq.symm)
    · exact fun g hg => hne g (List.mem_cons_of_mem f hg)

theorem moveFilesToDir_fs_eq (fs : FS) (base : Path) (files : List String)
    (tgt : String) (led : Option Ledger) (ts : String) (wOk : Bool) (werr : String) :
    (moveFilesToDir fs base files tgt led ts wOk werr).2.1
      = (processFiles (mkdir fs (base ++ [tgt])) base tgt ts files).1 := by
  cases led with
  | none => rfl
  | some L => cases wOk <;> rfl

theorem processMoves_dirs_preserved (d : Path) :
    ∀ (ms : List MoveRecord) (fs : FS) (r : RevertResult), d ∈ fs.dirs →
      (∀ mv ∈ ms, mv.target ≠ d) → d ∈ (processMoves fs r ms).1.dirs := by
  intro ms
  induction ms with
  | nil => intro fs r hd _; exact hd
  | cons m rest ih =>
    intro fs r hd hne
    rw [processMoves_cons]
    apply ih
    · cases h : pathEx fs m.target with
      | true =>
        have hstep : (revertMoveStep fs r m).1
            = moveFile (mkdirParents fs m.source) m.target m.source := by
          simp [revertMoveStep, h]
        rw [hstep]
        apply mem_dirs_moveFile
        · exact (mem_dirs_mkdirParents fs m.source d).mpr (Or.inr hd)
        · exact fun heq => hne m (List.mem_cons_self m rest) (heq ▸ rfl)
      | false =>
        have hstep : (revertMoveStep fs r m).1 = fs := by
          simp [revertMoveStep, h]
        rw [hstep]
        exact hd
    · exact fun mv hmv => hne mv (List.mem_cons_of_mem m hmv)

theorem processFolders_dirs_preserved (d : Path) :
    ∀ (fes : List FolderCreationRecord) (fs : FS) (r : RevertResult), d ∈ fs.dirs →
      (∀ fe ∈ fes, fe.folderPath ≠ d) → d ∈ (processFolders fs r fes).1.dirs := by
  intro fes
  induction fes with
  | nil => intro fs r hd _; exact hd
  | cons fe rest ih =>
    intro fs r hd hne
    rw [processFolders_cons]
    apply ih
    · have hned : d ≠ fe.folderPath :=
        fun heq => hne fe (List.mem_cons_self fe rest) heq.symm
      unfold revertFolderStep
      split
      · split
        · exact (mem_dirs_rmdir _ _ _).mpr ⟨hd, hned⟩
        · exact hd
      · exact hd
    · exact fun g hg => hne g (List.mem_cons_of_mem fe hg)

theorem revertMoves_dirs_preserved (fs : FS) (led : Ledger) (d : Path)
    (hd : d ∈ fs.dirs)
    (hrec : ∀ fe ∈ led.foldersCreated, fe.folderPath ≠ d)
    (hmv : ∀ m ∈ led.moves, m.target ≠ d) :
    d ∈ (revertMoves fs led).1.dirs := by
  unfold revertMoves
  split
  · exact hd
  · apply processFolders_dirs_preserved d _ _ _ ?_ ?_
    · apply processMoves_dirs_preserved d _ _ _ hd
      intro mv hmvs
      exact hmv mv ((mem_sortByTsDesc MoveRecord.timestamp mv led.moves).mp hmvs)
    · intro fe hfe
      exact hrec fe ((mem_sortByTsDesc FolderCreationRecord.timestamp fe
        led.foldersCreated).mp hfe)

/-- C10: move_files_to_dir itself creates the target directory (it is present
on the filesystem after the call) but never touches the ledger's
folders_created sequence — whatever it writes back carries exactly the
prior folder-creation records; and revert_moves never removes a directory
that appears in no FolderCreationRecord of the ledger (and is no recorded
move target), so a folder created only by move_files_to_dir survives
revert. -/
theorem move_files_frame (fs : FS) (base : Path) (files : List String)
    (td : String) (led : Option Ledger) (L : Ledger) (ts : String) (wOk : Bool)
    (werr : String) (fsr : FS) (ledR : Ledger) (d : Path)
    (hf : ∀ f ∈ files, f ≠ td)
    (hd : d ∈ fsr.dirs)
    (hrec : ∀ fe ∈ ledR.foldersCreated, fe.folderPath ≠ d)
    (hmv : ∀ m ∈ ledR.moves, m.target ≠ d) :
    (base ++ [td]) ∈ (moveFilesToDir fs base files td led ts wOk werr).2.1.dirs
    ∧ (∃ L', (moveFilesToDir fs base files td (some L) ts wOk werr).2.2 = some L'
        ∧ L'.foldersCreated = L.foldersCreated)
    ∧ d ∈ (revertMoves fsr ledR).1.dirs := by
  refine ⟨?_, ?_, revertMoves_dirs_preserved fsr ledR d hd hrec hmv⟩
  · rw [moveFilesToDir_fs_eq]
    apply processFiles_dirs_preserved base td ts (base ++ [td]) files
    · exact (mem_dirs_mkdir fs _ _).mpr (Or.inl rfl)
    · intro f hfmem heq
      exact hf f hfmem (sameBaseChild_inj base f td heq)
  · cases wOk with
    | true =>
      exact ⟨{ moves := L.moves ++ (processFiles (mkdir fs (base ++ [td]))
                base td ts files).2.1, foldersCreated := L.foldersCreated },
             rfl, rfl⟩
    | false => exact ⟨L, rfl, rfl⟩

def fsC10 : FS := { files := [["b", "x.txt"]], dirs := [["b"]] }

def ledC10 : Ledger := { moves := [], foldersCreated := [] }

def fsC10r : FS := { files := [], dirs := [["b"], ["b", "t"]] }

def ledC10r : Ledger :=
  { moves := [{ timestamp := "t1", source := ["b", "y.txt"],
                target := ["b", "other", "y.txt"], filename := "y.txt" }],
    foldersCreated := [{ timestamp := "t0", folderName := "other",
                         folderPath := ["b", "other"] }] }

theorem move_files_frame_witness :
    (["b"] ++ ["t"]) ∈ (moveFilesToDir fsC10 ["b"] ["x.txt"] "t" (some ledC10)
        "ts" true "").2.1.dirs
    ∧ (∃ L', (moveFilesToDir fsC10 ["b"] ["x.txt"] "t" (some ledC10) "ts" true "").2.2
        = some L' ∧ L'.foldersCreated = ledC10.foldersCreated)
    ∧ ["b", "t"] ∈ (revertMoves fsC10r ledC10r).1.dirs := by
  have h := move_files_frame fsC10 ["b"] ["x.txt"] "t" (some ledC10) ledC10 "ts"
    true "" fsC10r ledC10r ["b", "t"] (by decide) (by decide) (by decide) (by decide)
  exact h

end Dlm
